import Mathlib

/-!
Shallow embedding of the multi-label scoring engine of the
CellProfiling/test-challenge repository (`testchallenge/scoring.py`; the
older top-level `scoring.py` is line-for-line identical on the functions
treated here), together with proofs settling the specification claims.

Matrices are lists of rows of integers (the binarizer produces 0/1 int
entries).  numpy float results are modelled by `NpVal`: a finite rational,
NaN, or +infinity.  Every count, metric numerator and metric denominator in
this pipeline is nonnegative, so negative infinities cannot arise and the
arithmetic below implements IEEE semantics on the nonnegative fragment.
-/

/-- A numpy floating-point value as it occurs in this pipeline: a finite
rational, NaN (from 0/0), or +inf (from x/0 with x > 0). -/
inductive NpVal where
  | num (q : ℚ)
  | nan
  | inf
deriving DecidableEq

/-- Addition of numpy values (NaN propagates, inf absorbs). -/
def NpVal.add : NpVal → NpVal → NpVal
  | .num a, .num b => .num (a + b)
  | .nan, _ => .nan
  | _, .nan => .nan
  | .inf, _ => .inf
  | _, .inf => .inf

/-- Multiplication of numpy values (NaN propagates; inf times a nonzero
nonnegative finite value is inf, inf times 0 is NaN). -/
def NpVal.mul : NpVal → NpVal → NpVal
  | .num a, .num b => .num (a * b)
  | .nan, _ => .nan
  | _, .nan => .nan
  | .inf, .num b => if b = 0 then .nan else .inf
  | .num a, .inf => if a = 0 then .nan else .inf
  | .inf, .inf => .inf

/-- Division of numpy values: 0/0 is NaN, x/0 is inf for x > 0 (operands in
this pipeline are nonnegative), NaN propagates, inf/inf is NaN. -/
def NpVal.div : NpVal → NpVal → NpVal
  | .num a, .num b => if b = 0 then (if a = 0 then .nan else .inf) else .num (a / b)
  | .nan, _ => .nan
  | _, .nan => .nan
  | .inf, .inf => .nan
  | .inf, .num _ => .inf
  | .num _, .inf => .num 0

/-- numpy true division of two integer counts, as in
`truepos / (truepos + falsepos)` under `errstate(divide='ignore',
invalid='ignore')`. -/
def npDivNat (a b : ℕ) : NpVal :=
  if b = 0 then (if a = 0 then .nan else .inf) else .num ((a : ℚ) / (b : ℚ))

/-- `x[~np.isfinite(x)] = 0`: replace every non-finite entry by 0. -/
def maskNonfinite : NpVal → NpVal
  | .num q => .num q
  | _ => .num 0

/-- One entry of `np.logical_and(prediction, actual)` (numpy truthiness:
an int is true iff nonzero), counted as 0/1 by the subsequent `np.sum`. -/
def tpEntry (p a : ℤ) : ℕ := if p ≠ 0 ∧ a ≠ 0 then 1 else 0

/-- One entry of `(actual - prediction) < 0`, counted as 0/1: a false
positive position. -/
def fpEntry (p a : ℤ) : ℕ := if a - p < 0 then 1 else 0

/-- One entry of `(actual - prediction) > 0`, counted as 0/1: a false
negative position. -/
def fnEntry (p a : ℤ) : ℕ := if a - p > 0 then 1 else 0

/-- Apply an element-wise 0/1 indicator to two matrices (numpy broadcasts
element-wise over equal shapes; `zipWith` realizes this for lists). -/
def entryMat (f : ℤ → ℤ → ℕ) (pred act : List (List ℤ)) : List (List ℕ) :=
  List.zipWith (fun prow arow => List.zipWith f prow arow) pred act

/-- `np.sum(m, axis=None)`: the sum of every entry. -/
def sumAll (m : List (List ℕ)) : ℕ := (m.map List.sum).sum

/-- `np.sum(m, axis=0)` for a matrix of width `w`: column-wise sums. -/
def colSums (w : ℕ) (m : List (List ℕ)) : List ℕ :=
  m.foldl (fun acc row => List.zipWith (· + ·) acc row) (List.replicate w 0)

/-- The column count numpy infers for a rectangular list-of-rows input. -/
def width (m : List (List ℤ)) : ℕ := (m.head?.map List.length).getD 0

/-- Total-mode true-positive count: `np.sum(np.logical_and(p, a))`. -/
def totalTP (pred act : List (List ℤ)) : ℕ := sumAll (entryMat tpEntry pred act)

/-- Total-mode false-positive count. -/
def totalFP (pred act : List (List ℤ)) : ℕ := sumAll (entryMat fpEntry pred act)

/-- Total-mode false-negative count. -/
def totalFN (pred act : List (List ℤ)) : ℕ := sumAll (entryMat fnEntry pred act)

/-- Per-class true-positive counts (`axis=0` sums). -/
def classTPs (pred act : List (List ℤ)) : List ℕ :=
  colSums (width act) (entryMat tpEntry pred act)

/-- Per-class false-positive counts. -/
def classFPs (pred act : List (List ℤ)) : List ℕ :=
  colSums (width act) (entryMat fpEntry pred act)

/-- Per-class false-negative counts. -/
def classFNs (pred act : List (List ℤ)) : List ℕ :=
  colSums (width act) (entryMat fnEntry pred act)

/-- Total-mode precision `truepos / (truepos + falsepos)`.  The result is a
numpy scalar, so the `np.isscalar` guard skips the non-finite masking. -/
def totalPrecision (pred act : List (List ℤ)) : NpVal :=
  npDivNat (totalTP pred act) (totalTP pred act + totalFP pred act)

/-- Total-mode recall `truepos / (truepos + falseneg)` (unmasked scalar). -/
def totalRecall (pred act : List (List ℤ)) : NpVal :=
  npDivNat (totalTP pred act) (totalTP pred act + totalFN pred act)

/-- Total-mode f1 `2 * (precision * recall) / (precision + recall)`. -/
def totalF1 (pred act : List (List ℤ)) : NpVal :=
  NpVal.div (NpVal.mul (.num 2) (NpVal.mul (totalPrecision pred act) (totalRecall pred act)))
    (NpVal.add (totalPrecision pred act) (totalRecall pred act))

/-- Class-mode precision vector: element-wise division followed by
`precision[~np.isfinite(precision)] = 0` (the vector branch is taken). -/
def classPrecision (pred act : List (List ℤ)) : List NpVal :=
  List.zipWith (fun tp fp => maskNonfinite (npDivNat tp (tp + fp)))
    (classTPs pred act) (classFPs pred act)

/-- Class-mode recall vector, masked like the precision vector. -/
def classRecall (pred act : List (List ℤ)) : List NpVal :=
  List.zipWith (fun tp fn => maskNonfinite (npDivNat tp (tp + fn)))
    (classTPs pred act) (classFNs pred act)

/-- Class-mode f1 vector `2 * (precision * recall) / (precision + recall)`,
computed from the masked vectors; the f1 vector itself is never masked. -/
def classF1 (pred act : List (List ℤ)) : List NpVal :=
  List.zipWith (fun p r => NpVal.div (NpVal.mul (.num 2) (NpVal.mul p r)) (NpVal.add p r))
    (classPrecision pred act) (classRecall pred act)

/-- The `mode` argument of `precision_recall`: the string 'total' or
'class' (any other string raises `ValueError` at entry). -/
inductive Mode where
  | total
  | perClass
deriving DecidableEq

/-- The return value of `precision_recall`: a scalar triple in 'total'
mode, vectors in 'class' mode; f1 is present only when `include_f1`. -/
inductive PRResult where
  | scalar (p r : NpVal) (f1 : Option NpVal)
  | vector (p r : List NpVal) (f1 : Option (List NpVal))
deriving DecidableEq

/-- `precision_recall(prediction, actual, include_f1, mode)` from
`scoring.py`. -/
def precision_recall (pred act : List (List ℤ)) (include_f1 : Bool) (mode : Mode) : PRResult :=
  match mode with
  | .total =>
      .scalar (totalPrecision pred act) (totalRecall pred act)
        (if include_f1 then some (totalF1 pred act) else none)
  | .perClass =>
      .vector (classPrecision pred act) (classRecall pred act)
        (if include_f1 then some (classF1 pred act) else none)

/-- The two run-time failures `jaccard_index` can raise: the explicit
`ValueError('Array lengths do not agree')` and Python's `ZeroDivisionError`
from the final integer division. -/
inductive JaccardError where
  | lengthMismatch
  | divisionByZero
deriving DecidableEq

instance {e a : Type _} [DecidableEq e] [DecidableEq a] : DecidableEq (Except e a) :=
  fun x y =>
  match x, y with
  | .ok v, .ok w => if h : v = w then isTrue (by rw [h]) else isFalse (by simp [h])
  | .error v, .error w => if h : v = w then isTrue (by rw [h]) else isFalse (by simp [h])
  | .ok _, .error _ => isFalse (by simp)
  | .error _, .ok _ => isFalse (by simp)

/-- `set(np.where(v)[0])`: the set of positions of a vector that hold a
nonzero (truthy) entry. -/
def whereSet (v : List ℤ) : Finset ℕ :=
  (List.range v.length).toFinset.filter (fun i => v.getD i 0 ≠ 0)

/-- The accumulation loop of `jaccard_index` over the zipped record pairs,
carrying the running numerator and denominator. -/
def jaccardAcc : List (List ℤ × List ℤ) → ℕ → ℕ → Except JaccardError (ℕ × ℕ)
  | [], n, d => .ok (n, d)
  | (t, p) :: rest, n, d =>
      if t.length ≠ p.length then .error .lengthMismatch
      else jaccardAcc rest (n + ((whereSet t) ∩ (whereSet p)).card)
        (d + ((whereSet t) ∪ (whereSet p)).card)

/-- `jaccard_index(y_true, y_predict)` from `scoring.py`: `zip` the two
sequences (silently truncating to the shorter), accumulate intersection and
union cardinalities, and divide once at the end (`ZeroDivisionError` when
the accumulated union is zero). -/
def jaccard_index (y_true y_predict : List (List ℤ)) : Except JaccardError ℚ :=
  match jaccardAcc (y_true.zip y_predict) 0 0 with
  | .error e => .error e
  | .ok (n, d) => if d = 0 then .error .divisionByZero else .ok ((n : ℚ) / (d : ℚ))

/-- The `Binarizer` object: its only state is the sorted list of classes
(the two index dictionaries are derived from it). -/
structure Binarizer where
  classes : List String
deriving DecidableEq

/-- Decidability of the lexicographic string order through the character
list order (an instance the kernel can evaluate, equivalent to the
library's iterator-based one). -/
def strDecLE : DecidableRel ((· ≤ ·) : String → String → Prop) :=
  fun _ _ => decidable_of_iff _ String.le_iff_toList_le.symm

/-- `Binarizer.__init__`: `self.classes = sorted(set(classes))` — the
distinct class names in ascending lexicographic (code point) order. -/
def Binarizer.ofList (cs : List String) : Binarizer :=
  ⟨@List.insertionSort String (· ≤ ·) strDecLE cs.dedup⟩

/-- The `_index` dictionary `dict(zip(self.classes, range(len(...))))`:
maps a class name to its position; a missing key raises `KeyError`,
modelled by `none`. -/
def Binarizer.index (b : Binarizer) (c : String) : Option ℕ :=
  if c ∈ b.classes then some (b.classes.indexOf c) else none

/-- The `_reverse_index` dictionary `dict(zip(range(len(...)), classes))`:
maps an integer key to the class stored at that position; a key outside
`0 .. len - 1` raises `KeyError`, modelled by `none`. -/
def Binarizer.reverseIndex (b : Binarizer) (i : ℤ) : Option String :=
  if i < 0 then none else b.classes.get? i.toNat

/-- `Binarizer.bin_label` on an iterable, non-string item (the multi-label
branch): start from `[0] * len(self.classes)` and set position
`_index[class_]` to 1 for each member. -/
def Binarizer.bin_label (b : Binarizer) (item : List String) : Option (List ℤ) :=
  item.foldlM (fun acc c => (b.index c).map (fun i => acc.set i 1))
    (List.replicate b.classes.length 0)

/-- `Binarizer.binarize` (also `__call__`): the row-wise lift of
`bin_label`. -/
def Binarizer.binarize (b : Binarizer) (to_bin : List (List String)) :
    Option (List (List ℤ)) :=
  to_bin.mapM b.bin_label

/-- `Binarizer.unbin_label`: iterates over the entries of the binary
vector and, for each truthy entry, appends `_reverse_index[idx]` where
`idx` is the entry VALUE (not its position). -/
def Binarizer.unbin_label (b : Binarizer) (item : List ℤ) : Option (List String) :=
  item.foldlM
    (fun acc bit =>
      if bit ≠ 0 then (b.reverseIndex bit).map (fun c => acc ++ [c]) else pure acc)
    []

/-- The fixed class catalog of `testchallenge/scoring.py`. -/
def POSSIBLE_CLASSES : List String :=
  ["U-251 MG", "HeLa", "PC-3", "A549", "MCF7", "U-2 OS", "HEK 293", "CACO-2", "RT4"]

/-- The structured output document written by `score()` (`data` is the
overall `[precision, recall, f1]`, `additionalData` one such triple per
vocabulary class); the stdout table carries the same values. -/
structure MetricDocument where
  data : List NpVal
  additionalData : List (List NpVal)
deriving DecidableEq

/-- Outcome of a scoring run on two parsed datasets: the identifier
mismatch gate (with its two set-difference diagnostics), an uncaught
`KeyError` from binarizing an unknown label, an uncaught `IndexError`
from indexing the per-class result vectors, or the emitted document. -/
inductive ScoreResult where
  | idMismatch (onlySolution onlyPrediction : Finset String)
  | labelError
  | indexError
  | emitted (doc : MetricDocument)
deriving DecidableEq

/-- The core of `score()` after argument parsing and file reading: both
inputs are already-parsed (identifier, labels) sequences.  The solution is
binarized before the identifier gate, exactly as in the source. -/
def runScore (solution prediction : List (String × List String)) : ScoreResult :=
  let binarizer := Binarizer.ofList POSSIBLE_CLASSES
  let solutionIds := solution.map Prod.fst
  let predictionIds := prediction.map Prod.fst
  match binarizer.binarize (solution.map Prod.snd) with
  | none => .labelError
  | some binSolution =>
      if solutionIds ≠ predictionIds then
        .idMismatch (solutionIds.toFinset \ predictionIds.toFinset)
          (predictionIds.toFinset \ solutionIds.toFinset)
      else
        match binarizer.binarize (prediction.map Prod.snd) with
        | none => .labelError
        | some binPrediction =>
            match (List.range binarizer.classes.length).mapM (fun idx => do
                let p ← (classPrecision binPrediction binSolution).get? idx
                let r ← (classRecall binPrediction binSolution).get? idx
                let f ← (classF1 binPrediction binSolution).get? idx
                pure [p, r, f]) with
            | none => .indexError
            | some perClassRows =>
                .emitted
                  { data := [totalPrecision binPrediction binSolution,
                      totalRecall binPrediction binSolution,
                      totalF1 binPrediction binSolution]
                    additionalData := perClassRows }

/-- The process exit status: `sys.exit(-1)` on the mismatch gate, exit
code 1 for an uncaught exception, 0 on normal completion. -/
def exitCode : ScoreResult → ℤ
  | .idMismatch _ _ => -1
  | .labelError => 1
  | .indexError => 1
  | .emitted _ => 0

lemma npDivNat_self_zero : npDivNat 0 0 = .nan := rfl

lemma maskNonfinite_npDivNat_exists (a b : ℕ) :
    ∃ q : ℚ, 0 ≤ q ∧ maskNonfinite (npDivNat a b) = .num q := by
  by_cases hb : b = 0
  · by_cases ha : a = 0 <;> exact ⟨0, le_refl 0, by simp [npDivNat, hb, ha, maskNonfinite]⟩
  · exact ⟨(a : ℚ) / (b : ℚ), by positivity, by simp [npDivNat, hb, maskNonfinite]⟩

lemma classPrecision_nonneg (pred act : List (List ℤ)) (j : ℕ) (p : ℚ)
    (hp : (classPrecision pred act).get? j = some (.num p)) : 0 ≤ p := by
  rw [classPrecision, List.get?_zipWith_eq_some] at hp
  obtain ⟨tp, fp, -, -, hval⟩ := hp
  obtain ⟨q, hq, heq⟩ := maskNonfinite_npDivNat_exists tp (tp + fp)
  rw [heq] at hval
  cases hval
  exact hq

lemma classRecall_nonneg (pred act : List (List ℤ)) (j : ℕ) (r : ℚ)
    (hr : (classRecall pred act).get? j = some (.num r)) : 0 ≤ r := by
  rw [classRecall, List.get?_zipWith_eq_some] at hr
  obtain ⟨tp, fn, -, -, hval⟩ := hr
  obtain ⟨q, hq, heq⟩ := maskNonfinite_npDivNat_exists tp (tp + fn)
  rw [heq] at hval
  cases hval
  exact hq

/-- Spec-side element-wise true-positive indicator: predicted 1 and
gold 1. -/
def specTPEntry (p a : ℤ) : ℕ := if p = 1 ∧ a = 1 then 1 else 0

/-- Spec-side element-wise false-positive indicator: predicted 1 and
gold 0. -/
def specFPEntry (p a : ℤ) : ℕ := if p = 1 ∧ a = 0 then 1 else 0

/-- Spec-side element-wise false-negative indicator: predicted 0 and
gold 1. -/
def specFNEntry (p a : ℤ) : ℕ := if p = 0 ∧ a = 1 then 1 else 0

/-- Every entry of the matrix is 0 or 1. -/
def IsBinary (m : List (List ℤ)) : Prop := ∀ row ∈ m, ∀ x ∈ row, x = 0 ∨ x = 1

/-- Every row has length `w`. -/
def Rectangular (w : ℕ) (m : List (List ℤ)) : Prop := ∀ row ∈ m, row.length = w

/-- Spec-side column sum: the sum of the entries of column `j`. -/
def colSum (j : ℕ) (m : List (List ℕ)) : ℕ := (m.map (fun r => r.getD j 0)).sum

instance (m : List (List ℤ)) : Decidable (IsBinary m) :=
  decidable_of_iff (∀ row ∈ m, ∀ x ∈ row, x = 0 ∨ x = 1) Iff.rfl

instance (w : ℕ) (m : List (List ℤ)) : Decidable (Rectangular w m) :=
  decidable_of_iff (∀ row ∈ m, row.length = w) Iff.rfl

lemma zipWith_congr_mem {α β γ : Type _} (f g : α → β → γ) :
    ∀ (l1 : List α) (l2 : List β), (∀ a ∈ l1, ∀ b ∈ l2, f a b = g a b) →
      List.zipWith f l1 l2 = List.zipWith g l1 l2 := by
  intro l1
  induction l1 with
  | nil => intro l2 _; rfl
  | cons a l1 ih =>
      intro l2 h
      cases l2 with
      | nil => rfl
      | cons b l2 =>
          simp only [List.zipWith_cons_cons]
          refine congrArg₂ _ (h a (by simp) b (by simp)) (ih l2 ?_)
          intro x hx y hy
          exact h x (by simp [hx]) y (by simp [hy])

lemma entryMat_congr (f g : ℤ → ℤ → ℕ) (pred act : List (List ℤ))
    (h : ∀ p a, (p = 0 ∨ p = 1) → (a = 0 ∨ a = 1) → f p a = g p a)
    (hbp : IsBinary pred) (hba : IsBinary act) :
    entryMat f pred act = entryMat g pred act := by
  unfold entryMat
  apply zipWith_congr_mem
  intro prow hp arow ha
  apply zipWith_congr_mem
  intro p hpm a ham
  exact h p a (hbp prow hp p hpm) (hba arow ha a ham)

lemma entryMat_row_length (f : ℤ → ℤ → ℕ) (w : ℕ) :
    ∀ (pred act : List (List ℤ)), Rectangular w pred → Rectangular w act →
      ∀ row ∈ entryMat f pred act, row.length = w := by
  intro pred
  induction pred with
  | nil => intro act _ _ row hrow; simp [entryMat] at hrow
  | cons prow pred ih =>
      intro act hrp hra row hrow
      cases act with
      | nil => simp [entryMat] at hrow
      | cons arow act =>
          simp only [entryMat, List.zipWith_cons_cons, List.mem_cons] at hrow
          rcases hrow with rfl | hrow
          · rw [List.length_zipWith, hrp prow (by simp), hra arow (by simp), min_self]
          · exact ih act (fun r hr => hrp r (by simp [hr]))
              (fun r hr => hra r (by simp [hr])) row hrow

lemma foldl_zipWith_add_get? :
    ∀ (m : List (List ℕ)) (acc : List ℕ), (∀ row ∈ m, row.length = acc.length) →
      ∀ j, j < acc.length →
      (m.foldl (fun a r => List.zipWith (· + ·) a r) acc).get? j =
        some (acc.getD j 0 + (m.map (fun r => r.getD j 0)).sum) := by
  intro m
  induction m with
  | nil =>
      intro acc _ j hj
      simp [List.get?_eq_getElem?, List.getElem?_eq_getElem hj,
        List.getD_eq_getElem?_getD]
  | cons r m ih =>
      intro acc h j hj
      have hr : r.length = acc.length := h r (by simp)
      have hlen2 : (List.zipWith (· + ·) acc r).length = acc.length := by
        rw [List.length_zipWith, hr, min_self]
      rw [List.foldl_cons, ih (List.zipWith (· + ·) acc r)
        (fun row hrow => by rw [hlen2]; exact h row (by simp [hrow])) j (by rw [hlen2]; exact hj)]
      have hzip : (List.zipWith (· + ·) acc r).getD j 0 = acc.getD j 0 + r.getD j 0 := by
        simp only [List.getD_eq_getElem?_getD, List.getElem?_zipWith']
        rw [List.getElem?_eq_getElem hj, List.getElem?_eq_getElem (hr ▸ hj)]
        rfl
      rw [List.map_cons, List.sum_cons, hzip, Nat.add_assoc]

lemma colSums_get? (w : ℕ) (m : List (List ℕ)) (hrect : ∀ row ∈ m, row.length = w)
    (j : ℕ) (hj : j < w) :
    (colSums w m).get? j = some (colSum j m) := by
  have h := foldl_zipWith_add_get? m (List.replicate w 0)
    (by simpa using hrect) j (by simpa using hj)
  rw [colSums, colSum]
  rw [h]
  simp [List.getD_eq_getElem?_getD, List.getElem?_replicate, hj]

/-- C1 (counterexample): on the all-zero 1×1 input the denominators
TP + FP and TP + FN are zero, but `precision_recall` in 'total' mode
returns NaN (the non-finite masking is skipped for numpy scalars) while
'class' mode returns 0 — the two modes do not behave identically and the
'total' value is not 0. -/
theorem claim1_counterexample :
    precision_recall [[0]] [[0]] false Mode.total = PRResult.scalar .nan .nan none ∧
    precision_recall [[0]] [[0]] false Mode.perClass =
      PRResult.vector [.num 0] [.num 0] none ∧
    NpVal.nan ≠ NpVal.num 0 := by
  refine ⟨?_, ?_, by simp⟩
  · norm_num [precision_recall, totalPrecision, totalRecall, totalTP, totalFP, totalFN,
      sumAll, entryMat, tpEntry, fpEntry, fnEntry, npDivNat]
  · norm_num [precision_recall, classPrecision, classRecall, classTPs, classFPs,
      classFNs, colSums, width, entryMat, tpEntry, fpEntry, fnEntry, npDivNat, maskNonfinite]

/-- C1 (amended): whenever a precision or recall denominator (TP + FP, or
TP + FN) is zero, the per-class ('class' mode) value is exactly 0, but the
aggregate ('total' mode) value is NaN: the zero-on-zero-denominator
masking applies only to the vector results. -/
theorem claim1_amended (pred act : List (List ℤ)) (j : ℕ) (tp fp fn : ℕ)
    (htp : (classTPs pred act).get? j = some tp)
    (hfp : (classFPs pred act).get? j = some fp)
    (hfn : (classFNs pred act).get? j = some fn) :
    (tp + fp = 0 → (classPrecision pred act).get? j = some (.num 0)) ∧
    (tp + fn = 0 → (classRecall pred act).get? j = some (.num 0)) ∧
    (totalTP pred act + totalFP pred act = 0 → totalPrecision pred act = .nan) ∧
    (totalTP pred act + totalFN pred act = 0 → totalRecall pred act = .nan) := by
  refine ⟨fun h => ?_, fun h => ?_, fun h => ?_, fun h => ?_⟩
  · obtain ⟨h1, h2⟩ := Nat.add_eq_zero.mp h
    rw [classPrecision, List.get?_zipWith_eq_some]
    exact ⟨tp, fp, htp, hfp, by simp [h1, h2, npDivNat, maskNonfinite]⟩
  · obtain ⟨h1, h2⟩ := Nat.add_eq_zero.mp h
    rw [classRecall, List.get?_zipWith_eq_some]
    exact ⟨tp, fn, htp, hfn, by simp [h1, h2, npDivNat, maskNonfinite]⟩
  · obtain ⟨h1, h2⟩ := Nat.add_eq_zero.mp h
    rw [totalPrecision, h1, h2]
    rfl
  · obtain ⟨h1, h2⟩ := Nat.add_eq_zero.mp h
    rw [totalRecall, h1, h2]
    rfl

/-- C1 (witness): the amended statement instantiated on the all-zero 1×1
input with its hypotheses discharged. -/
theorem claim1_witness :
    (classTPs [[0]] [[0]]).get? 0 = some 0 ∧
    (classFPs [[0]] [[0]]).get? 0 = some 0 ∧
    (classFNs [[0]] [[0]]).get? 0 = some 0 ∧
    ((0 + 0 = 0 → (classPrecision [[0]] [[0]]).get? 0 = some (.num 0)) ∧
      (0 + 0 = 0 → (classRecall [[0]] [[0]]).get? 0 = some (.num 0)) ∧
      (totalTP [[0]] [[0]] + totalFP [[0]] [[0]] = 0 → totalPrecision [[0]] [[0]] = .nan) ∧
      (totalTP [[0]] [[0]] + totalFN [[0]] [[0]] = 0 → totalRecall [[0]] [[0]] = .nan)) :=
  ⟨by decide, by decide, by decide,
    claim1_amended [[0]] [[0]] 0 0 0 0 (by decide) (by decide) (by decide)⟩

/-- C2 (counterexample): with `include_f1` on the all-zero 1×1 input (a
class absent from both gold and prediction), 'class' mode returns
precision = recall = 0 but F1 = NaN, not 0: the F1 vector is computed
after the masking and is never itself masked. -/
theorem claim2_counterexample :
    precision_recall [[0]] [[0]] true Mode.perClass =
      PRResult.vector [.num 0] [.num 0] (some [.nan]) ∧
    NpVal.nan ≠ NpVal.num 0 := by
  refine ⟨?_, by simp⟩
  norm_num [precision_recall, classPrecision, classRecall, classF1, classTPs, classFPs,
    classFNs, colSums, width, entryMat, tpEntry, fpEntry, fnEntry, npDivNat, maskNonfinite,
    NpVal.div, NpVal.mul, NpVal.add]

/-- C2 (amended): the F1 value is `2 × precision × recall /
(precision + recall)`; when the denominator `precision + recall` is
nonzero this is the finite rational of that formula, but when it is zero
(in particular for a class absent from both datasets, where precision and
recall are both 0) the F1 value is NaN, not 0 — in 'class' mode and in
'total' mode alike. -/
theorem claim2_amended (pred act : List (List ℤ)) (j : ℕ) (p r : ℚ)
    (hp : (classPrecision pred act).get? j = some (.num p))
    (hr : (classRecall pred act).get? j = some (.num r)) :
    (classF1 pred act).get? j = some (NpVal.div (.num (2 * (p * r))) (.num (p + r))) ∧
    (p + r = 0 → (classF1 pred act).get? j = some .nan) ∧
    (p + r ≠ 0 → (classF1 pred act).get? j = some (.num (2 * (p * r) / (p + r)))) ∧
    (totalPrecision pred act = .num 0 → totalRecall pred act = .num 0 →
      totalF1 pred act = .nan) := by
  have hform : (classF1 pred act).get? j =
      some (NpVal.div (.num (2 * (p * r))) (.num (p + r))) := by
    rw [classF1, List.get?_zipWith_eq_some]
    exact ⟨.num p, .num r, hp, hr, by simp [NpVal.mul, NpVal.add]⟩
  have hp0 : 0 ≤ p := classPrecision_nonneg pred act j p hp
  have hr0 : 0 ≤ r := classRecall_nonneg pred act j r hr
  refine ⟨hform, fun h => ?_, fun h => ?_, fun h1 h2 => ?_⟩
  · have hpz : p = 0 := le_antisymm (by linarith) hp0
    have hrz : r = 0 := le_antisymm (by linarith) hr0
    rw [hform, hpz, hrz]
    norm_num [NpVal.div]
  · rw [hform]
    simp [NpVal.div, h]
  · rw [totalF1, h1, h2]
    norm_num [NpVal.mul, NpVal.add, NpVal.div]

/-- C2 (witness): the amended statement instantiated on the all-zero 1×1
input (precision = recall = 0), with its hypotheses discharged. -/
theorem claim2_witness :
    (classPrecision [[0]] [[0]]).get? 0 = some (.num 0) ∧
    (classRecall [[0]] [[0]]).get? 0 = some (.num 0) ∧
    ((classF1 [[0]] [[0]]).get? 0 =
        some (NpVal.div (.num (2 * ((0 : ℚ) * 0))) (.num ((0 : ℚ) + 0))) ∧
      ((0 : ℚ) + 0 = 0 → (classF1 [[0]] [[0]]).get? 0 = some .nan) ∧
      ((0 : ℚ) + 0 ≠ 0 →
        (classF1 [[0]] [[0]]).get? 0 = some (.num (2 * ((0 : ℚ) * 0) / ((0 : ℚ) + 0)))) ∧
      (totalPrecision [[0]] [[0]] = .num 0 → totalRecall [[0]] [[0]] = .num 0 →
        totalF1 [[0]] [[0]] = .nan)) :=
  ⟨by decide, by decide, claim2_amended [[0]] [[0]] 0 0 0 (by decide) (by decide)⟩

/-- C5 (confirmed): for equally-shaped binary matrices, the counting phase
of `precision_recall` is element-wise TP = (predicted 1 ∧ gold 1),
FP = (predicted 1 ∧ gold 0), FN = (predicted 0 ∧ gold 1); 'total' mode
sums all elements of each indicator matrix into one triple, and 'class'
mode sums down each column, one value per class in vocabulary order. -/
theorem claim5_confusion_counts (w : ℕ) (pred act : List (List ℤ))
    (hbp : IsBinary pred) (hba : IsBinary act)
    (hrp : Rectangular w pred) (hra : Rectangular w act)
    (hlen : pred.length = act.length) (hne : act ≠ []) :
    entryMat tpEntry pred act = entryMat specTPEntry pred act ∧
    entryMat fpEntry pred act = entryMat specFPEntry pred act ∧
    entryMat fnEntry pred act = entryMat specFNEntry pred act ∧
    totalTP pred act = sumAll (entryMat specTPEntry pred act) ∧
    totalFP pred act = sumAll (entryMat specFPEntry pred act) ∧
    totalFN pred act = sumAll (entryMat specFNEntry pred act) ∧
    (∀ j, j < w →
      (classTPs pred act).get? j = some (colSum j (entryMat specTPEntry pred act)) ∧
      (classFPs pred act).get? j = some (colSum j (entryMat specFPEntry pred act)) ∧
      (classFNs pred act).get? j = some (colSum j (entryMat specFNEntry pred act))) := by
  have htp : entryMat tpEntry pred act = entryMat specTPEntry pred act := by
    refine entryMat_congr _ _ _ _ ?_ hbp hba
    intro p a hp ha
    rcases hp with rfl | rfl <;> rcases ha with rfl | rfl <;> decide
  have hfp : entryMat fpEntry pred act = entryMat specFPEntry pred act := by
    refine entryMat_congr _ _ _ _ ?_ hbp hba
    intro p a hp ha
    rcases hp with rfl | rfl <;> rcases ha with rfl | rfl <;> decide
  have hfn : entryMat fnEntry pred act = entryMat specFNEntry pred act := by
    refine entryMat_congr _ _ _ _ ?_ hbp hba
    intro p a hp ha
    rcases hp with rfl | rfl <;> rcases ha with rfl | rfl <;> decide
  have hw : width act = w := by
    cases act with
    | nil => exact absurd rfl hne
    | cons arow act => simp [width, hra arow (by simp)]
  refine ⟨htp, hfp, hfn, by rw [totalTP, htp], by rw [totalFP, hfp], by rw [totalFN, hfn],
    fun j hj => ⟨?_, ?_, ?_⟩⟩
  · rw [classTPs, hw, htp]
    exact colSums_get? w _ (entryMat_row_length _ w pred act hrp hra) j hj
  · rw [classFPs, hw, hfp]
    exact colSums_get? w _ (entryMat_row_length _ w pred act hrp hra) j hj
  · rw [classFNs, hw, hfn]
    exact colSums_get? w _ (entryMat_row_length _ w pred act hrp hra) j hj

/-- C5 (witness): the counting statement instantiated on the concrete
scenario of the specification (vocabulary of width 3, three records). -/
theorem claim5_witness :
    IsBinary [[1, 0, 0], [1, 0, 0], [0, 1, 1]] ∧
    IsBinary [[1, 0, 0], [1, 1, 0], [0, 0, 1]] ∧
    Rectangular 3 [[1, 0, 0], [1, 0, 0], [0, 1, 1]] ∧
    Rectangular 3 [[1, 0, 0], [1, 1, 0], [0, 0, 1]] ∧
    ([[1, 0, 0], [1, 0, 0], [0, 1, 1]] : List (List ℤ)).length =
      ([[1, 0, 0], [1, 1, 0], [0, 0, 1]] : List (List ℤ)).length ∧
    ([[1, 0, 0], [1, 1, 0], [0, 0, 1]] : List (List ℤ)) ≠ [] ∧
    (entryMat tpEntry [[1, 0, 0], [1, 0, 0], [0, 1, 1]] [[1, 0, 0], [1, 1, 0], [0, 0, 1]] =
        entryMat specTPEntry [[1, 0, 0], [1, 0, 0], [0, 1, 1]]
          [[1, 0, 0], [1, 1, 0], [0, 0, 1]] ∧
      entryMat fpEntry [[1, 0, 0], [1, 0, 0], [0, 1, 1]] [[1, 0, 0], [1, 1, 0], [0, 0, 1]] =
        entryMat specFPEntry [[1, 0, 0], [1, 0, 0], [0, 1, 1]]
          [[1, 0, 0], [1, 1, 0], [0, 0, 1]] ∧
      entryMat fnEntry [[1, 0, 0], [1, 0, 0], [0, 1, 1]] [[1, 0, 0], [1, 1, 0], [0, 0, 1]] =
        entryMat specFNEntry [[1, 0, 0], [1, 0, 0], [0, 1, 1]]
          [[1, 0, 0], [1, 1, 0], [0, 0, 1]] ∧
      totalTP [[1, 0, 0], [1, 0, 0], [0, 1, 1]] [[1, 0, 0], [1, 1, 0], [0, 0, 1]] =
        sumAll (entryMat specTPEntry [[1, 0, 0], [1, 0, 0], [0, 1, 1]]
          [[1, 0, 0], [1, 1, 0], [0, 0, 1]]) ∧
      totalFP [[1, 0, 0], [1, 0, 0], [0, 1, 1]] [[1, 0, 0], [1, 1, 0], [0, 0, 1]] =
        sumAll (entryMat specFPEntry [[1, 0, 0], [1, 0, 0], [0, 1, 1]]
          [[1, 0, 0], [1, 1, 0], [0, 0, 1]]) ∧
      totalFN [[1, 0, 0], [1, 0, 0], [0, 1, 1]] [[1, 0, 0], [1, 1, 0], [0, 0, 1]] =
        sumAll (entryMat specFNEntry [[1, 0, 0], [1, 0, 0], [0, 1, 1]]
          [[1, 0, 0], [1, 1, 0], [0, 0, 1]]) ∧
      (∀ j, j < 3 →
        (classTPs [[1, 0, 0], [1, 0, 0], [0, 1, 1]] [[1, 0, 0], [1, 1, 0], [0, 0, 1]]).get? j =
          some (colSum j (entryMat specTPEntry [[1, 0, 0], [1, 0, 0], [0, 1, 1]]
            [[1, 0, 0], [1, 1, 0], [0, 0, 1]])) ∧
        (classFPs [[1, 0, 0], [1, 0, 0], [0, 1, 1]] [[1, 0, 0], [1, 1, 0], [0, 0, 1]]).get? j =
          some (colSum j (entryMat specFPEntry [[1, 0, 0], [1, 0, 0], [0, 1, 1]]
            [[1, 0, 0], [1, 1, 0], [0, 0, 1]])) ∧
        (classFNs [[1, 0, 0], [1, 0, 0], [0, 1, 1]] [[1, 0, 0], [1, 1, 0], [0, 0, 1]]).get? j =
          some (colSum j (entryMat specFNEntry [[1, 0, 0], [1, 0, 0], [0, 1, 1]]
            [[1, 0, 0], [1, 1, 0], [0, 0, 1]])))) :=
  ⟨by decide, by decide, by decide, by decide, by decide, by decide,
    claim5_confusion_counts 3 [[1, 0, 0], [1, 0, 0], [0, 1, 1]]
      [[1, 0, 0], [1, 1, 0], [0, 0, 1]] (by decide) (by decide) (by decide) (by decide)
      (by decide) (by decide)⟩

lemma jaccardAcc_ok (pairs : List (List ℤ × List ℤ))
    (h : ∀ pr ∈ pairs, (pr.1).length = (pr.2).length) : ∀ n d,
    jaccardAcc pairs n d = .ok
      (n + (pairs.map (fun pr => ((whereSet pr.1) ∩ (whereSet pr.2)).card)).sum,
       d + (pairs.map (fun pr => ((whereSet pr.1) ∪ (whereSet pr.2)).card)).sum) := by
  induction pairs with
  | nil => intro n d; simp [jaccardAcc]
  | cons pr rest ih =>
      intro n d
      obtain ⟨t, p⟩ := pr
      have ht : t.length = p.length := h (t, p) (by simp)
      rw [jaccardAcc, if_neg (by simp [ht])]
      rw [ih (fun x hx => h x (by simp [hx])) _ _]
      simp [Nat.add_assoc]

lemma jaccardAcc_error_iff (pairs : List (List ℤ × List ℤ)) : ∀ n d,
    jaccardAcc pairs n d = .error .lengthMismatch ↔
      ∃ pr ∈ pairs, (pr.1).length ≠ (pr.2).length := by
  induction pairs with
  | nil => intro n d; simp [jaccardAcc]
  | cons pr rest ih =>
      intro n d
      obtain ⟨t, p⟩ := pr
      by_cases h : t.length = p.length
      · rw [jaccardAcc, if_neg (by simp [h]), ih]
        simp [h]
      · rw [jaccardAcc, if_pos (by simpa using h)]
        constructor
        · intro _
          exact ⟨(t, p), by simp, by simpa using h⟩
        · intro _
          rfl

/-- C4 (confirmed): on sequences of equal length whose record pairs carry
equal-length vectors and whose accumulated union is nonzero,
`jaccard_index` returns the single quotient of the intersection sizes
summed over all records by the union sizes summed over all records. -/
theorem claim4_jaccard_micro_average (y_true y_predict : List (List ℤ))
    (hlen : y_true.length = y_predict.length)
    (hrec : ∀ pr ∈ y_true.zip y_predict, (pr.1).length = (pr.2).length)
    (hden : ((y_true.zip y_predict).map
        (fun pr => ((whereSet pr.1) ∪ (whereSet pr.2)).card)).sum ≠ 0) :
    jaccard_index y_true y_predict = .ok
      ((((y_true.zip y_predict).map
          (fun pr => ((whereSet pr.1) ∩ (whereSet pr.2)).card)).sum : ℚ) /
        (((y_true.zip y_predict).map
          (fun pr => ((whereSet pr.1) ∪ (whereSet pr.2)).card)).sum : ℚ)) := by
  unfold jaccard_index
  rw [jaccardAcc_ok _ hrec 0 0]
  simp [hden]

/-- C4 (witness): the micro-average statement instantiated on the
specification's concrete scenario (gold `[{A}, {A,B}, {C}]`, prediction
`[{A}, {A}, {B,C}]` over a three-class vocabulary), yielding 3/5. -/
theorem claim4_witness :
    ([[1, 0, 0], [1, 1, 0], [0, 0, 1]] : List (List ℤ)).length =
      ([[1, 0, 0], [1, 0, 0], [0, 1, 1]] : List (List ℤ)).length ∧
    (∀ pr ∈ ([[1, 0, 0], [1, 1, 0], [0, 0, 1]] : List (List ℤ)).zip
        [[1, 0, 0], [1, 0, 0], [0, 1, 1]], (pr.1).length = (pr.2).length) ∧
    ((([[1, 0, 0], [1, 1, 0], [0, 0, 1]] : List (List ℤ)).zip
        [[1, 0, 0], [1, 0, 0], [0, 1, 1]]).map
      (fun pr => ((whereSet pr.1) ∪ (whereSet pr.2)).card)).sum ≠ 0 ∧
    jaccard_index [[1, 0, 0], [1, 1, 0], [0, 0, 1]] [[1, 0, 0], [1, 0, 0], [0, 1, 1]] =
      .ok (3 / 5 : ℚ) := by
  refine ⟨by decide, by decide, by decide, ?_⟩
  have h := claim4_jaccard_micro_average [[1, 0, 0], [1, 1, 0], [0, 0, 1]]
    [[1, 0, 0], [1, 0, 0], [0, 1, 1]] (by decide) (by decide) (by decide)
  have h2 : ((([[1, 0, 0], [1, 1, 0], [0, 0, 1]] : List (List ℤ)).zip
      [[1, 0, 0], [1, 0, 0], [0, 1, 1]]).map
    (fun pr => ((whereSet pr.1) ∩ (whereSet pr.2)).card)).sum = 3 := by decide
  have h3 : ((([[1, 0, 0], [1, 1, 0], [0, 0, 1]] : List (List ℤ)).zip
      [[1, 0, 0], [1, 0, 0], [0, 1, 1]]).map
    (fun pr => ((whereSet pr.1) ∪ (whereSet pr.2)).card)).sum = 5 := by decide
  rw [h, h2, h3]
  norm_num

/-- C7 (counterexample): sequences of different lengths (one record versus
two) do not raise `ArrayLengthMismatch` — `zip` silently truncates to the
shorter sequence and a numeric value is returned. -/
theorem claim7_counterexample :
    jaccard_index [[1]] [[1], [0]] = .ok 1 ∧
    ([[1]] : List (List ℤ)).length ≠ ([[1], [0]] : List (List ℤ)).length := by
  constructor
  · have h : jaccardAcc (([[1]] : List (List ℤ)).zip [[1], [0]]) 0 0 = .ok (1, 1) := by
      decide
    unfold jaccard_index
    rw [h]
    norm_num
  · decide

/-- C7 (amended): `jaccard_index` raises the array-length error exactly
when some zipped record pair carries vectors of different lengths; record
pairs beyond the shorter of the two sequences are silently dropped by
`zip`, so a sequence-length difference alone raises nothing. -/
theorem claim7_amended (y_true y_predict : List (List ℤ)) :
    jaccard_index y_true y_predict = .error .lengthMismatch ↔
      ∃ pr ∈ y_true.zip y_predict, (pr.1).length ≠ (pr.2).length := by
  rw [← jaccardAcc_error_iff (y_true.zip y_predict) 0 0]
  unfold jaccard_index
  cases hacc : jaccardAcc (y_true.zip y_predict) 0 0 with
  | error e => cases e <;> simp
  | ok nd =>
      obtain ⟨n, d⟩ := nd
      by_cases hd : d = 0 <;> simp [hd]

lemma whereSet_eq_empty (v : List ℤ) (h : ∀ x ∈ v, x = 0) : whereSet v = ∅ := by
  rw [whereSet, Finset.filter_eq_empty_iff]
  intro i hi
  rw [List.mem_toFinset, List.mem_range] at hi
  simp only [ne_eq, not_not]
  rw [List.getD_eq_getElem?_getD, List.getElem?_eq_getElem hi]
  exact h _ (List.getElem_mem hi)

/-- C10 (confirmed): when every gold and every prediction vector is
all-zero (so the accumulated union is zero), `jaccard_index` raises the
division-by-zero error and returns no numeric value. -/
theorem claim10_zero_union (y_true y_predict : List (List ℤ))
    (hlen : y_true.length = y_predict.length) (hne : y_true ≠ [])
    (hrec : ∀ pr ∈ y_true.zip y_predict, (pr.1).length = (pr.2).length)
    (hzt : ∀ v ∈ y_true, ∀ x ∈ v, x = 0) (hzp : ∀ v ∈ y_predict, ∀ x ∈ v, x = 0) :
    jaccard_index y_true y_predict = .error .divisionByZero ∧
    ∀ q : ℚ, jaccard_index y_true y_predict ≠ .ok q := by
  have hsum : ((y_true.zip y_predict).map
      (fun pr => ((whereSet pr.1) ∪ (whereSet pr.2)).card)).sum = 0 := by
    apply List.sum_eq_zero
    intro x hx
    rw [List.mem_map] at hx
    obtain ⟨⟨t, p⟩, hpr, rfl⟩ := hx
    obtain ⟨h1, h2⟩ := List.of_mem_zip hpr
    rw [whereSet_eq_empty t (hzt t h1), whereSet_eq_empty p (hzp p h2)]
    simp
  have hres : jaccard_index y_true y_predict = .error .divisionByZero := by
    unfold jaccard_index
    rw [jaccardAcc_ok _ hrec 0 0]
    simp [hsum]
  exact ⟨hres, fun q hq => by rw [hres] at hq; exact Except.noConfusion hq⟩

/-- C10 (witness): the division-by-zero statement instantiated on two
records of all-zero vectors. -/
theorem claim10_witness :
    ([[0, 0], [0, 0]] : List (List ℤ)).length =
      ([[0, 0], [0, 0]] : List (List ℤ)).length ∧
    ([[0, 0], [0, 0]] : List (List ℤ)) ≠ [] ∧
    (∀ pr ∈ ([[0, 0], [0, 0]] : List (List ℤ)).zip [[0, 0], [0, 0]],
      (pr.1).length = (pr.2).length) ∧
    (∀ v ∈ ([[0, 0], [0, 0]] : List (List ℤ)), ∀ x ∈ v, x = 0) ∧
    (jaccard_index [[0, 0], [0, 0]] [[0, 0], [0, 0]] = .error .divisionByZero ∧
      ∀ q : ℚ, jaccard_index [[0, 0], [0, 0]] [[0, 0], [0, 0]] ≠ .ok q) :=
  ⟨by decide, by decide, by decide, by decide,
    claim10_zero_union [[0, 0], [0, 0]] [[0, 0], [0, 0]] (by decide) (by decide)
      (by decide) (by decide) (by decide)⟩

lemma ofList_classes_perm_dedup (cs : List String) :
    ((Binarizer.ofList cs).classes).Perm cs.dedup :=
  @List.perm_insertionSort String (· ≤ ·) strDecLE cs.dedup

lemma ofList_classes_sorted (cs : List String) :
    List.Sorted (· ≤ ·) (Binarizer.ofList cs).classes :=
  @List.sorted_insertionSort String (· ≤ ·) strDecLE _ _ cs.dedup

lemma ofList_classes_nodup (cs : List String) : (Binarizer.ofList cs).classes.Nodup :=
  (ofList_classes_perm_dedup cs).nodup_iff.mpr (List.nodup_dedup cs)

lemma mem_ofList_classes (cs : List String) (c : String) :
    c ∈ (Binarizer.ofList cs).classes ↔ c ∈ cs :=
  ((ofList_classes_perm_dedup cs).mem_iff).trans List.mem_dedup

/-- C8 (counterexample): constructing a `Binarizer` from the empty
collection succeeds — `sorted(set([]))` is the empty list and `__init__`
performs no emptiness check, so the claimed `EmptyVocabulary` failure does
not exist in the code. -/
theorem claim8_counterexample :
    Binarizer.ofList [] = ⟨[]⟩ ∧ (Binarizer.ofList []).classes.length = 0 :=
  ⟨rfl, rfl⟩

/-- C8 (amended): `Binarizer` construction succeeds on every input,
including the empty one; the vocabulary has one entry per distinct input
name, and it is empty exactly when the input is empty (no
`EmptyVocabulary` error is ever raised). -/
theorem claim8_amended (cs : List String) :
    (Binarizer.ofList cs).classes.length = cs.dedup.length ∧
    ((Binarizer.ofList cs).classes = [] ↔ cs = []) := by
  constructor
  · exact (ofList_classes_perm_dedup cs).length_eq.trans rfl
  · constructor
    · intro h
      have hp := ofList_classes_perm_dedup cs
      rw [h] at hp
      exact (List.dedup_eq_nil cs).mp hp.symm.eq_nil
    · intro h
      rw [h]
      rfl

/-- C9 (confirmed): two class lists denoting the same set produce
identical `Binarizer`s; the class sequence is the deduplicated input
sorted ascending (sorted, duplicate-free, containing exactly the input's
names), and positions are assigned 0-based in sorted order (the index of
the class stored at position `i` is `i`, and `_index` maps each class to
its position). -/
theorem claim9_vocabulary_determinism (l1 l2 : List String)
    (h : l1.toFinset = l2.toFinset) :
    Binarizer.ofList l1 = Binarizer.ofList l2 ∧
    List.Sorted (· ≤ ·) (Binarizer.ofList l1).classes ∧
    (Binarizer.ofList l1).classes.Nodup ∧
    (∀ c, c ∈ (Binarizer.ofList l1).classes ↔ c ∈ l1) ∧
    (∀ i, ∀ hi : i < (Binarizer.ofList l1).classes.length,
      (Binarizer.ofList l1).classes.indexOf ((Binarizer.ofList l1).classes.get ⟨i, hi⟩) = i) ∧
    (∀ c ∈ l1, (Binarizer.ofList l1).index c =
      some ((Binarizer.ofList l1).classes.indexOf c)) := by
  have hdedup : l1.dedup.Perm l2.dedup := by
    have h2 := congrArg Finset.val h
    rw [List.toFinset_val, List.toFinset_val] at h2
    exact Multiset.coe_eq_coe.mp h2
  have heq : Binarizer.ofList l1 = Binarizer.ofList l2 := by
    have hperm : ((Binarizer.ofList l1).classes).Perm (Binarizer.ofList l2).classes :=
      ((ofList_classes_perm_dedup l1).trans hdedup).trans
        (ofList_classes_perm_dedup l2).symm
    have hclasses := List.eq_of_perm_of_sorted hperm
      (ofList_classes_sorted l1) (ofList_classes_sorted l2)
    exact congrArg Binarizer.mk hclasses
  refine ⟨heq, ofList_classes_sorted l1, ofList_classes_nodup l1,
    fun c => mem_ofList_classes l1 c, fun i hi => ?_, fun c hc => ?_⟩
  · rw [List.get_eq_getElem]
    exact List.indexOf_getElem (ofList_classes_nodup l1) i hi
  · rw [Binarizer.index, if_pos ((mem_ofList_classes l1 c).mpr hc)]

/-- C9 (witness): the determinism statement instantiated on the lists
`["B", "A", "B"]` and `["A", "B"]`, which denote the same class set. -/
theorem claim9_witness :
    (["B", "A", "B"] : List String).toFinset = (["A", "B"] : List String).toFinset ∧
    (Binarizer.ofList ["B", "A", "B"] = Binarizer.ofList ["A", "B"] ∧
      List.Sorted (· ≤ ·) (Binarizer.ofList ["B", "A", "B"]).classes ∧
      (Binarizer.ofList ["B", "A", "B"]).classes.Nodup ∧
      (∀ c, c ∈ (Binarizer.ofList ["B", "A", "B"]).classes ↔ c ∈ ["B", "A", "B"]) ∧
      (∀ i, ∀ hi : i < (Binarizer.ofList ["B", "A", "B"]).classes.length,
        (Binarizer.ofList ["B", "A", "B"]).classes.indexOf
          ((Binarizer.ofList ["B", "A", "B"]).classes.get ⟨i, hi⟩) = i) ∧
      (∀ c ∈ (["B", "A", "B"] : List String), (Binarizer.ofList ["B", "A", "B"]).index c =
        some ((Binarizer.ofList ["B", "A", "B"]).classes.indexOf c))) :=
  ⟨by decide, claim9_vocabulary_determinism ["B", "A", "B"] ["A", "B"] (by decide)⟩

/-- C3 (code_bug): `unbin_label` iterates over the entries of the binary
vector and uses each truthy entry's VALUE (always 1) as the key into
`_reverse_index`, instead of the entry's position, so it returns the class
at index 1 once per set bit: decoding the encoding of `{A}` over the
vocabulary `{A, B, C}` yields `["B"]`, not `["A"]` — the code contradicts
its own docstring ("Unbinarize a single item", the inverse of
`bin_label`). -/
theorem claim3_roundtrip_code_bug :
    (Binarizer.ofList ["A", "B", "C"]).bin_label ["A"] = some [1, 0, 0] ∧
    ((Binarizer.ofList ["A", "B", "C"]).bin_label ["A"]).bind
      (Binarizer.ofList ["A", "B", "C"]).unbin_label = some ["B"] ∧
    (["B"] : List String) ≠ ["A"] := by
  refine ⟨by decide, by decide, by decide⟩

lemma foldl_zipWith_add_length : ∀ (m : List (List ℕ)) (acc : List ℕ),
    (∀ row ∈ m, row.length = acc.length) →
    (m.foldl (fun a r => List.zipWith (· + ·) a r) acc).length = acc.length := by
  intro m
  induction m with
  | nil => intro acc _; rfl
  | cons r m ih =>
      intro acc h
      have hr : r.length = acc.length := h r (by simp)
      have hlen2 : (List.zipWith (· + ·) acc r).length = acc.length := by
        rw [List.length_zipWith, hr, min_self]
      rw [List.foldl_cons,
        ih _ (fun row hrow => by rw [hlen2]; exact h row (by simp [hrow])), hlen2]

lemma colSums_length (w : ℕ) (m : List (List ℕ)) (h : ∀ row ∈ m, row.length = w) :
    (colSums w m).length = w := by
  rw [colSums, foldl_zipWith_add_length m _ (by simpa using h)]
  simp

lemma classVectors_length (w : ℕ) (pred act : List (List ℤ))
    (hrp : Rectangular w pred) (hra : Rectangular w act) (hne : act ≠ []) :
    (classPrecision pred act).length = w ∧ (classRecall pred act).length = w ∧
      (classF1 pred act).length = w := by
  have hw : width act = w := by
    cases act with
    | nil => exact absurd rfl hne
    | cons arow act => simp [width, hra arow (by simp)]
  have htp : (classTPs pred act).length = w := by
    rw [classTPs, hw]
    exact colSums_length w _ (entryMat_row_length _ w pred act hrp hra)
  have hfp : (classFPs pred act).length = w := by
    rw [classFPs, hw]
    exact colSums_length w _ (entryMat_row_length _ w pred act hrp hra)
  have hfn : (classFNs pred act).length = w := by
    rw [classFNs, hw]
    exact colSums_length w _ (entryMat_row_length _ w pred act hrp hra)
  have hp : (classPrecision pred act).length = w := by
    rw [classPrecision, List.length_zipWith, htp, hfp, min_self]
  have hr : (classRecall pred act).length = w := by
    rw [classRecall, List.length_zipWith, htp, hfn, min_self]
  exact ⟨hp, hr, by rw [classF1, List.length_zipWith, hp, hr, min_self]⟩

lemma binLabel_foldlM_some (b : Binarizer) : ∀ (item : List String) (acc : List ℤ),
    (∀ c ∈ item, c ∈ b.classes) →
    ∃ v, List.foldlM (fun acc c => (b.index c).map (fun i => acc.set i 1)) acc item =
        some v ∧ v.length = acc.length := by
  intro item
  induction item with
  | nil => intro acc _; exact ⟨acc, rfl, rfl⟩
  | cons c item ih =>
      intro acc h
      obtain ⟨v, hv, hl⟩ := ih (acc.set (b.classes.indexOf c) 1)
        (fun x hx => h x (by simp [hx]))
      refine ⟨v, ?_, by rw [hl, List.length_set]⟩
      rw [List.foldlM_cons, Binarizer.index, if_pos (h c (by simp))]
      simpa using hv

lemma bin_label_some (b : Binarizer) (item : List String)
    (h : ∀ c ∈ item, c ∈ b.classes) :
    ∃ v, b.bin_label item = some v ∧ v.length = b.classes.length := by
  obtain ⟨v, hv, hl⟩ := binLabel_foldlM_some b item (List.replicate b.classes.length 0) h
  exact ⟨v, hv, by rw [hl, List.length_replicate]⟩

lemma binarize_some (b : Binarizer) : ∀ (rows : List (List String)),
    (∀ row ∈ rows, ∀ c ∈ row, c ∈ b.classes) →
    ∃ m, b.binarize rows = some m ∧ m.length = rows.length ∧
      ∀ r ∈ m, r.length = b.classes.length := by
  intro rows
  induction rows with
  | nil => intro _; exact ⟨[], rfl, rfl, by simp⟩
  | cons row rows ih =>
      intro h
      obtain ⟨v, hv, hvl⟩ := bin_label_some b row (h row (by simp))
      obtain ⟨m, hm, hml, hmr⟩ := ih (fun r hr c hc => h r (by simp [hr]) c hc)
      refine ⟨v :: m, ?_, by simp [hml], ?_⟩
      · rw [Binarizer.binarize] at hm
        rw [Binarizer.binarize, List.mapM_cons, hv, hm]
        rfl
      · intro r hr
        rcases List.mem_cons.mp hr with rfl | hr
        · exact hvl
        · exact hmr r hr

lemma get?_some_of_lt {α : Type _} (l : List α) (i : ℕ) (h : i < l.length) :
    ∃ v, l.get? i = some v :=
  ⟨l.get ⟨i, h⟩, List.get?_eq_get h⟩

lemma mapM_option_some {α β : Type _} (f : α → Option β) :
    ∀ (l : List α), (∀ x ∈ l, ∃ v, f x = some v) → ∃ out, l.mapM f = some out := by
  intro l
  induction l with
  | nil => intro _; exact ⟨[], rfl⟩
  | cons a l ih =>
      intro h
      obtain ⟨v, hv⟩ := h a (by simp)
      obtain ⟨out, hout⟩ := ih (fun x hx => h x (by simp [hx]))
      exact ⟨v :: out, by rw [List.mapM_cons, hv, hout]; rfl⟩

/-- C6 (confirmed): on validated datasets (every label in the catalog,
solution nonempty), whenever the identifier sequences are not element-wise
equal — in particular when one is a permutation of the other — the run
stops at the `IdentifierMismatch` gate with the two set differences as
diagnostics, exits with the nonzero status -1, and emits no metric
document; when the identifier sequences are element-wise equal, a metric
document is emitted and the exit status is 0. -/
theorem claim6_identifier_gate (solution prediction : List (String × List String))
    (hsol : ∀ rec ∈ solution, ∀ c ∈ rec.2, c ∈ POSSIBLE_CLASSES)
    (hpred : ∀ rec ∈ prediction, ∀ c ∈ rec.2, c ∈ POSSIBLE_CLASSES)
    (hne : solution ≠ []) :
    (solution.map Prod.fst ≠ prediction.map Prod.fst →
      runScore solution prediction =
        .idMismatch
          ((solution.map Prod.fst).toFinset \ (prediction.map Prod.fst).toFinset)
          ((prediction.map Prod.fst).toFinset \ (solution.map Prod.fst).toFinset) ∧
      exitCode (runScore solution prediction) ≠ 0 ∧
      ∀ doc, runScore solution prediction ≠ .emitted doc) ∧
    (solution.map Prod.fst = prediction.map Prod.fst →
      ∃ doc, runScore solution prediction = .emitted doc ∧
        exitCode (runScore solution prediction) = 0) := by
  have hsolc : ∀ row ∈ solution.map Prod.snd, ∀ c ∈ row,
      c ∈ (Binarizer.ofList POSSIBLE_CLASSES).classes := by
    intro row hrow c hc
    rw [List.mem_map] at hrow
    obtain ⟨rec, hrec, rfl⟩ := hrow
    exact (mem_ofList_classes _ c).mpr (hsol rec hrec c hc)
  obtain ⟨binSol, hbinSol, hbinSolLen, hbinSolRows⟩ :=
    binarize_some (Binarizer.ofList POSSIBLE_CLASSES) (solution.map Prod.snd) hsolc
  constructor
  · intro hmis
    have hrun : runScore solution prediction =
        .idMismatch
          ((solution.map Prod.fst).toFinset \ (prediction.map Prod.fst).toFinset)
          ((prediction.map Prod.fst).toFinset \ (solution.map Prod.fst).toFinset) := by
      simp only [runScore, hbinSol]
      rw [if_pos hmis]
    refine ⟨hrun, by rw [hrun]; norm_num [exitCode],
      fun doc => by rw [hrun]; exact fun h => ScoreResult.noConfusion h⟩
  · intro heq
    have hpredc : ∀ row ∈ prediction.map Prod.snd, ∀ c ∈ row,
        c ∈ (Binarizer.ofList POSSIBLE_CLASSES).classes := by
      intro row hrow c hc
      rw [List.mem_map] at hrow
      obtain ⟨rec, hrec, rfl⟩ := hrow
      exact (mem_ofList_classes _ c).mpr (hpred rec hrec c hc)
    obtain ⟨binPred, hbinPred, hbinPredLen, hbinPredRows⟩ :=
      binarize_some (Binarizer.ofList POSSIBLE_CLASSES) (prediction.map Prod.snd) hpredc
    have hbinSolNe : binSol ≠ [] := by
      intro hnil
      apply hne
      rw [← List.length_eq_zero]
      have h0 := hbinSolLen
      rw [hnil, List.length_nil, List.length_map] at h0
      exact h0.symm
    have hW := classVectors_length (Binarizer.ofList POSSIBLE_CLASSES).classes.length
      binPred binSol hbinPredRows hbinSolRows hbinSolNe
    obtain ⟨rows, hrows⟩ := mapM_option_some
      (fun idx => do
        let p ← (classPrecision binPred binSol).get? idx
        let r ← (classRecall binPred binSol).get? idx
        let f ← (classF1 binPred binSol).get? idx
        pure [p, r, f])
      (List.range (Binarizer.ofList POSSIBLE_CLASSES).classes.length)
      (by
        intro idx hidx
        rw [List.mem_range] at hidx
        obtain ⟨p, hp⟩ := get?_some_of_lt _ idx (by rw [hW.1]; exact hidx)
        obtain ⟨r, hr⟩ := get?_some_of_lt _ idx (by rw [hW.2.1]; exact hidx)
        obtain ⟨f, hf⟩ := get?_some_of_lt _ idx (by rw [hW.2.2]; exact hidx)
        rw [List.get?_eq_getElem?] at hp hr hf
        exact ⟨[p, r, f], by simp [hp, hr, hf]⟩)
    have hrun : runScore solution prediction =
        .emitted
          { data := [totalPrecision binPred binSol, totalRecall binPred binSol,
              totalF1 binPred binSol]
            additionalData := rows } := by
      simp only [runScore, hbinSol]
      rw [if_neg (not_not_intro heq)]
      simp only [hbinPred, hrows]
    exact ⟨_, hrun, by rw [hrun]; rfl⟩

/-- C6 (witness): the identifier-gate statement instantiated on two
validated single-label datasets whose identifier sequences are
permutations of each other (same set `{1, 2}`, different order). -/
theorem claim6_witness :
    (∀ rec ∈ ([("1", ["HeLa"]), ("2", ["RT4"])] : List (String × List String)),
      ∀ c ∈ rec.2, c ∈ POSSIBLE_CLASSES) ∧
    (∀ rec ∈ ([("2", ["RT4"]), ("1", ["HeLa"])] : List (String × List String)),
      ∀ c ∈ rec.2, c ∈ POSSIBLE_CLASSES) ∧
    ([("1", ["HeLa"]), ("2", ["RT4"])] : List (String × List String)) ≠ [] ∧
    (([("1", ["HeLa"]), ("2", ["RT4"])] : List (String × List String)).map
        Prod.fst).toFinset =
      (([("2", ["RT4"]), ("1", ["HeLa"])] : List (String × List String)).map
        Prod.fst).toFinset ∧
    (([("1", ["HeLa"]), ("2", ["RT4"])] : List (String × List String)).map Prod.fst ≠
        ([("2", ["RT4"]), ("1", ["HeLa"])] : List (String × List String)).map Prod.fst →
      runScore [("1", ["HeLa"]), ("2", ["RT4"])] [("2", ["RT4"]), ("1", ["HeLa"])] =
        .idMismatch
          ((([("1", ["HeLa"]), ("2", ["RT4"])] : List (String × List String)).map
              Prod.fst).toFinset \
            (([("2", ["RT4"]), ("1", ["HeLa"])] : List (String × List String)).map
              Prod.fst).toFinset)
          ((([("2", ["RT4"]), ("1", ["HeLa"])] : List (String × List String)).map
              Prod.fst).toFinset \
            (([("1", ["HeLa"]), ("2", ["RT4"])] : List (String × List String)).map
              Prod.fst).toFinset) ∧
      exitCode (runScore [("1", ["HeLa"]), ("2", ["RT4"])] [("2", ["RT4"]), ("1", ["HeLa"])]) ≠
        0 ∧
      ∀ doc, runScore [("1", ["HeLa"]), ("2", ["RT4"])] [("2", ["RT4"]), ("1", ["HeLa"])] ≠
        .emitted doc) ∧
    (([("1", ["HeLa"]), ("2", ["RT4"])] : List (String × List String)).map Prod.fst =
        ([("2", ["RT4"]), ("1", ["HeLa"])] : List (String × List String)).map Prod.fst →
      ∃ doc, runScore [("1", ["HeLa"]), ("2", ["RT4"])] [("2", ["RT4"]), ("1", ["HeLa"])] =
          .emitted doc ∧
        exitCode (runScore [("1", ["HeLa"]), ("2", ["RT4"])]
          [("2", ["RT4"]), ("1", ["HeLa"])]) = 0) :=
  ⟨by decide, by decide, by decide, by decide,
    (claim6_identifier_gate [("1", ["HeLa"]), ("2", ["RT4"])] [("2", ["RT4"]), ("1", ["HeLa"])]
      (by decide) (by decide) (by decide)).1,
    (claim6_identifier_gate [("1", ["HeLa"]), ("2", ["RT4"])] [("2", ["RT4"]), ("1", ["HeLa"])]
      (by decide) (by decide) (by decide)).2⟩
